import Mathlib

/-!
Verification of the aperture-photometry core `src/aper.c` (SEP).

The C code computes with `double`s; it is embedded here over an ordered
field (instantiated at `ℚ` where only field and floor operations occur,
and at `ℝ` where `sqrt`, `atan`, `fmod` appear).  C's `(int)` cast is
truncation toward zero, embedded as `ctrunc`.  Buffers are embedded as
total functions from flat indices to converted pixel values; the pixel
converters of `sepcore.c` (absent from the provided sources) appear only
through a recognition oracle on the numeric-format tags.

Definitions come first, theorems afterwards.
-/

namespace SEP

/-! ## Data model -/

/-- C's `(int)` cast of a floating value: truncation toward zero. -/
def ctrunc {α : Type} [LinearOrderedField α] [FloorRing α] (v : α) : ℤ :=
  if 0 ≤ v then ⌊v⌋ else ⌈v⌉

/-- Modelled from the spec: the flag bitset of §3 (truncated box, masked
pixels present, all pixels masked, non-positive Kron aggregate).  The
numeric bit values live in `sep.h`, which is not part of the provided
sources; the bitset is embedded as a record of booleans combined by
field-wise `or`. -/
structure Flags where
  trunc : Bool
  hasmasked : Bool
  allmasked : Bool
  nonpositive : Bool
deriving DecidableEq

/-- `*flag = 0`. -/
def Flags.clear : Flags := ⟨false, false, false, false⟩

/-- Modelled from the spec: the status taxonomy of §7.  The numeric codes
live in `sep.h`, absent from the provided sources. -/
inductive Status where
  | ok
  | illegalAperParams
  | illegalSubpix
  | nonEllipseParams
  | unsupportedPixelFormat
deriving DecidableEq

/-- Integer pixel bounds of a scan box: `xmin`/`ymin` inclusive,
`xmax`/`ymax` exclusive. -/
structure Box where
  xmin : ℤ
  xmax : ℤ
  ymin : ℤ
  ymax : ℤ
deriving DecidableEq

/-- The half-open integer interval `[lo, hi)` as a list, the iteration
space of the C `for` loops. -/
def intRange (lo hi : ℤ) : List ℤ :=
  (List.range (hi - lo).toNat).map (fun k : ℕ => lo + (k : ℤ))

/-- Row-start flat index used by `sep_sum_circann_multi`
(aper.c line 391): `pos = (iy % h) * w`, advanced by one per column. -/
def multiPos (h w iy ix : ℤ) : ℤ := (iy % h) * w + ix

/-- Row-start flat index used by `sep_kron_radius`
(aper.c line 617): `pos = (iy % h) * w`, advanced by one per column. -/
def kronPos (h w iy ix : ℤ) : ℤ := (iy % h) * w + ix

/-- Flat index used by `sep_set_ellipse` (aper.c line 686):
`arrt = arr + (yi*w + xmin)`, advanced by one per column. -/
def rasterPos (w iy ix : ℤ) : ℤ := iy * w + ix

/-! ## Ellipse representation converters (aper.c lines 44-81) -/

/-- The position-angle steps of `sep_ellipse_axes` (aper.c lines 61-65):
`theta = 0` if `cxy == 0`, else `(q == 0 ? 0 : atan(cxy/q))/2`; add `π/2`
when `cxx > cyy`; subtract `π` when the result exceeds `π/2`. -/
noncomputable def codeTheta (cxx cyy cxy : ℝ) : ℝ :=
  let q := cxx - cyy
  let theta0 := if cxy = 0 then 0
                else (if q = 0 then 0 else Real.arctan (cxy / q)) / 2
  let theta1 := if cyy < cxx then theta0 + Real.pi / 2 else theta0
  if Real.pi / 2 < theta1 then theta1 - Real.pi else theta1

/-- `sep_ellipse_axes`: semi-axes and position angle from quadratic-form
coefficients (`cxx x² + cyy y² + cxy x y = 1`); fails with
`NON_ELLIPSE_PARAMS` when `cxx·cyy − cxy²/4 ≤ 0` or `cxx + cyy ≤ 0`. -/
noncomputable def sep_ellipse_axes (cxx cyy cxy : ℝ) :
    Except Status (ℝ × ℝ × ℝ) :=
  let p := cxx + cyy
  let q := cxx - cyy
  let t := Real.sqrt (q * q + cxy * cxy)
  if cxx * cyy - cxy * cxy / 4 ≤ 0 ∨ p ≤ 0 then
    .error .nonEllipseParams
  else
    let a := Real.sqrt (2 / (p - t))
    let b := Real.sqrt (2 / (p + t))
    .ok (a, b, codeTheta cxx cyy cxy)

/-- `sep_ellipse_coeffs`: quadratic-form coefficients from semi-axes and
position angle. -/
noncomputable def sep_ellipse_coeffs (a b theta : ℝ) : ℝ × ℝ × ℝ :=
  let costheta := Real.cos theta
  let sintheta := Real.sin theta
  (costheta * costheta / (a * a) + sintheta * sintheta / (b * b),
   sintheta * sintheta / (a * a) + costheta * costheta / (b * b),
   2 * costheta * sintheta * (1 / (a * a) - 1 / (b * b)))

/-! ## Box extent (aper.c lines 90-134) -/

/-- `boxextent`: extent of the box that just contains the circle/ellipse
with radii `rx`, `ry` centred at `(x, y)`, clamped to the `w × h` image,
or-ing the truncation flag on any clamp.  The literal `1.4999999` of the
C source is kept exactly. -/
def boxextent {α : Type} [LinearOrderedField α] [FloorRing α]
    (x y rx ry : α) (w h : ℤ) (flag : Flags) : Box × Flags :=
  let xmin0 := ctrunc (x - rx + 1/2)
  let xmax0 := ctrunc (x + rx + 14999999/10000000)
  let ymin0 := ctrunc (y - ry + 1/2)
  let ymax0 := ctrunc (y + ry + 14999999/10000000)
  let t1 : Bool := decide (xmin0 < 0)
  let t2 : Bool := decide (xmax0 > w)
  let t3 : Bool := decide (ymin0 < 0)
  let t4 : Bool := decide (ymax0 > h)
  (⟨if xmin0 < 0 then 0 else xmin0,
    if xmax0 > w then w else xmax0,
    if ymin0 < 0 then 0 else ymin0,
    if ymax0 > h then h else ymax0⟩,
   { flag with trunc := flag.trunc || t1 || t2 || t3 || t4 })

/-- `boxextent_ellipse` (aper.c lines 121-134): per-axis extents from the
quadratic form, then the circular box routine. -/
noncomputable def boxextent_ellipse (x y cxx cyy cxy r : ℝ) (w h : ℤ)
    (flag : Flags) : Box × Flags :=
  let dxlim0 := cxx - cxy * cxy / (4 * cyy)
  let dxlim := if 0 < dxlim0 then r / Real.sqrt dxlim0 else 0
  let dylim0 := cyy - cxy * cxy / (4 * cxx)
  let dylim := if 0 < dylim0 then r / Real.sqrt dylim0 else 0
  boxextent x y dxlim dylim w h flag

/-! ## Percentile interpolator `sep_ppf` (aper.c lines 517-553) -/

/-- The scan loop of `sep_ppf`:
`while (i < n && cumsum < targsum) { cumsum += y[i]; i++; }`
over the remaining profile entries, returning the final
`(cumsum, i)`. -/
def ppfScan {α : Type} [LinearOrderedField α] (targ : α) :
    List α → α → ℕ → α × ℕ
  | [], c, i => (c, i)
  | v :: rest, c, i =>
      if c < targ then ppfScan targ rest (c + v) (i + 1) else (c, i)

/-- `sep_ppf` for a single requested fraction `f`: total the profile,
scan for the first prefix reaching `f * total`, then apply the
branch structure of aper.c lines 544-549. -/
def sep_ppf_one {α : Type} [LinearOrderedField α]
    (xmax : α) (y : List α) (f : α) : α :=
  let n := y.length
  let step := xmax / (n : α)
  let total := y.foldl (· + ·) 0
  let targsum := f * total
  let r := ppfScan targsum y 0 0
  if r.2 = 0 then 0
  else if r.2 = n then xmax
  else step * ((r.2 : α) + (targsum - r.1) / y.getD (r.2 - 1) 0)

/-- `sep_ppf` over a list of requested fractions: the loop body is
independent per fraction (`cumsum` and `i` are reset each iteration). -/
def sep_ppf {α : Type} [LinearOrderedField α]
    (xmax : α) (y : List α) (fracs : List α) : List α :=
  fracs.map (sep_ppf_one xmax y)

/-- Smallest count `i` of leading profile entries whose cumulative sum
reaches the target (the search the C3 claim describes): cumulative sums
`0, y₀, y₀+y₁, …` are inspected in order. -/
def firstReach {α : Type} [LinearOrderedField α] (targ : α) :
    List α → α → ℕ → Option ℕ
  | [], c, i => if targ ≤ c then some i else none
  | v :: rest, c, i =>
      if targ ≤ c then some i else firstReach targ rest (c + v) (i + 1)

/-- The radius the C3 claim predicts, following the claim's words: 0 when
the cumulative condition is already satisfied at count 0; `xmax` when no
count of bins reaches `f·S`; otherwise `step·(i + (f·S − cumsum_i)/y[i−1])`
at the smallest count `i` reaching `f·S`. -/
def ppfClaimSpec {α : Type} [LinearOrderedField α]
    (xmax : α) (y : List α) (f : α) : α :=
  let n := y.length
  let targ := f * y.sum
  match firstReach targ y 0 0 with
  | none => xmax
  | some 0 => 0
  | some i => xmax / (n : α) * ((i : α) + (targ - (y.take i).sum) / y.getD (i - 1) 0)

/-! ## Multi-annulus summation `sep_sum_circann_multi`
(aper.c lines 312-513) -/

/-- C `fmod`: `x − y·trunc(x/y)` (exact for the real-number
idealization; the dividends arising here are non-negative). -/
noncomputable def fmod (x y : ℝ) : ℝ := x - y * ((ctrunc (x / y) : ℤ) : ℝ)

/-- Per-bin accumulator arrays `sum`, `sumvar`, `area`, `maskarea`. -/
structure Bins where
  sum : ℤ → ℝ
  sumvar : ℤ → ℝ
  area : ℤ → ℝ
  maskarea : ℤ → ℝ

/-- One deposit of weight `w` into bin `j`, guarded by `j < n`
(aper.c lines 439-449 and 457-467): into `maskarea` when the pixel's
mask flag is set, else into `sum`/`sumvar`; `area` always.  The
whole-pixel case is this at weight 1. -/
noncomputable def deposit (n : ℤ) (masked : Bool) (pix varpix w : ℝ)
    (j : ℤ) (b : Bins) : Bins :=
  if j < n then
    if masked then
      { b with
        maskarea := Function.update b.maskarea j (b.maskarea j + w),
        area := Function.update b.area j (b.area j + w) }
    else
      { b with
        sum := Function.update b.sum j (b.sum j + w * pix),
        sumvar := Function.update b.sumvar j (b.sumvar j + w * varpix),
        area := Function.update b.area j (b.area j + w) }
  else b

/-- The contribution of one pixel inside the outer margin, as the code
computes it (aper.c lines 425-468): oversample when
`fmod(rpix, step) < 0.7072` or `> step − 0.7072`, else deposit the whole
pixel into bin `(int)(rpix·stepdens)`. -/
noncomputable def pixContrib (x y rmax : ℝ) (n : ℤ) (subpix : ℕ)
    (pix varpix : ℝ) (masked : Bool) (ix iy : ℤ) (b : Bins) : Bins :=
  let dx := (ix : ℝ) - x
  let dy := (iy : ℝ) - y
  let rpix2 := dx * dx + dy * dy
  let scale := 1 / (subpix : ℝ)
  let scale2 := scale * scale
  let offset := 1/2 * (scale - 1)
  let step := rmax / (n : ℝ)
  let stepdens := 1 / step
  let rpix := Real.sqrt rpix2
  let d := fmod rpix step
  if d < 7072/10000 ∨ d > step - 7072/10000 then
    (List.range subpix).foldl (fun b1 sy =>
      (List.range subpix).foldl (fun b2 sx =>
        let dx1 := dx + offset + (sx : ℝ) * scale
        let dyv := dy + offset + (sy : ℝ) * scale
        deposit n masked pix varpix scale2
          (ctrunc (Real.sqrt (dx1 * dx1 + dyv * dyv) * stepdens)) b2) b1) b
  else
    deposit n masked pix varpix 1 (ctrunc (rpix * stepdens)) b

/-- The contribution of one pixel as the C1 claim words it: when
`fmod(rpix, rmax/n)` lies in `[0.7072, rmax/n − 0.7072]` the whole pixel
(weight 1) goes to bin `⌊rpix/(rmax/n)⌋`; otherwise the pixel is split
into `subpix × subpix` sub-cells, each a point sample at its sub-cell
center, each of weight `1/subpix²`, binned by its own center distance. -/
noncomputable def pixContribClaim (x y rmax : ℝ) (n : ℤ) (subpix : ℕ)
    (pix varpix : ℝ) (masked : Bool) (ix iy : ℤ) (b : Bins) : Bins :=
  let dx := (ix : ℝ) - x
  let dy := (iy : ℝ) - y
  let step := rmax / (n : ℝ)
  let rpix := Real.sqrt (dx * dx + dy * dy)
  let d := fmod rpix step
  if 7072/10000 ≤ d ∧ d ≤ step - 7072/10000 then
    deposit n masked pix varpix 1 ⌊rpix / step⌋ b
  else
    (List.range subpix).foldl (fun b1 sy =>
      (List.range subpix).foldl (fun b2 sx =>
        let dx1 := dx - 1/2 + ((sx : ℝ) + 1/2) / (subpix : ℝ)
        let dyv := dy - 1/2 + ((sy : ℝ) + 1/2) / (subpix : ℝ)
        deposit n masked pix varpix (1 / (subpix : ℝ) ^ 2)
          ⌊Real.sqrt (dx1 * dx1 + dyv * dyv) / step⌋ b2) b1) b

/-- The inputs of one `sep_sum_circann_multi` call.  Buffers are embedded
post-conversion as functions from flat element index to value;
`hasErr`/`hasMask` model non-NULL `error`/`mask` pointers; the three
`Bit` fields model `SEP_ERROR_IS_ARRAY`, `SEP_ERROR_IS_VAR` and
`SEP_MASK_IGNORE` in `inflag`. -/
structure ApCall where
  data : ℤ → ℝ
  hasErr : Bool
  err : ℤ → ℝ
  hasMask : Bool
  mask : ℤ → ℝ
  dtype : ℤ
  edtype : ℤ
  mdtype : ℤ
  w : ℤ
  h : ℤ
  maskthresh : ℝ
  gain : ℝ
  errIsArrayBit : Bool
  errIsVarBit : Bool
  maskIgnoreBit : Bool
  x : ℝ
  y : ℝ
  rmax : ℝ
  n : ℤ
  subpix : ℕ

/-- `errisarray = inflag & SEP_ERROR_IS_ARRAY`, forced to 0 when `error`
is NULL (aper.c lines 371-373). -/
def errisarray (P : ApCall) : Bool := P.errIsArrayBit && P.hasErr

/-- `errisstd = !(inflag & SEP_ERROR_IS_VAR)` (aper.c line 374). -/
def errisstd (P : ApCall) : Bool := !P.errIsVarBit

/-- The scalar pixel variance set before the scan when `error` is scalar
(aper.c lines 377-382); 0 otherwise. -/
noncomputable def varpix0 (P : ApCall) : ℝ :=
  if P.hasErr && !errisarray P then
    (if errisstd P then P.err 0 * P.err 0 else P.err 0)
  else 0

/-- One pixel of the `sep_sum_circann_multi` scan as the code performs
it (aper.c lines 399-468): windowed flat index, outer-margin gate on
`rpix2 < r_out²`, per-pixel value/variance/mask reads, `HASMASKED` flag,
then the bin contribution. -/
noncomputable def multiPixCode (P : ApCall) (iy ix : ℤ)
    (st : Bins × Flags) : Bins × Flags :=
  let pos := multiPos P.h P.w iy ix
  let dx := (ix : ℝ) - P.x
  let dy := (iy : ℝ) - P.y
  let rpix2 := dx * dx + dy * dy
  let r_out := P.rmax + 3/2
  if rpix2 < r_out * r_out then
    let pix := P.data pos
    let varpix := if errisarray P then
        (if errisstd P then P.err pos * P.err pos else P.err pos)
      else varpix0 P
    let masked : Bool := if P.hasMask = true ∧ P.maskthresh < P.mask pos
      then true else false
    let f2 := if masked then { st.2 with hasmasked := true } else st.2
    (pixContrib P.x P.y P.rmax P.n P.subpix pix varpix masked ix iy st.1, f2)
  else st

/-- One pixel of the scan as the C1 claim words it: a pixel whose center
distance `rpix` satisfies `rpix² < (rmax + 1.5)²` contributes per
`pixContribClaim`, with the masked/unmasked decision taken once per
whole pixel. -/
noncomputable def multiPixClaim (P : ApCall) (iy ix : ℤ)
    (st : Bins × Flags) : Bins × Flags :=
  let pos := multiPos P.h P.w iy ix
  let dx := (ix : ℝ) - P.x
  let dy := (iy : ℝ) - P.y
  let rpix := Real.sqrt (dx * dx + dy * dy)
  if rpix ^ 2 < (P.rmax + 3/2) ^ 2 then
    let pix := P.data pos
    let varpix := if errisarray P then
        (if errisstd P then P.err pos * P.err pos else P.err pos)
      else varpix0 P
    let masked : Bool := if P.hasMask = true ∧ P.maskthresh < P.mask pos
      then true else false
    let f2 := if masked then { st.2 with hasmasked := true } else st.2
    (pixContribClaim P.x P.y P.rmax P.n P.subpix pix varpix masked ix iy st.1, f2)
  else st

/-- The nested row/column loop over a scan box. -/
noncomputable def scanBox (pixf : ℤ → ℤ → Bins × Flags → Bins × Flags)
    (box : Box) (st : Bins × Flags) : Bins × Flags :=
  (intRange box.ymin box.ymax).foldl (fun s iy =>
    (intRange box.xmin box.xmax).foldl (fun s2 ix => pixf iy ix s2) s) st

/-- `memset(a, 0, n*sizeof(double))`: the first `n` bins zeroed. -/
def zeroN (n : ℤ) (g : ℤ → ℝ) : ℤ → ℝ :=
  fun j => if 0 ≤ j ∧ j < n then 0 else g j

/-- The mask correction of `sep_sum_circann_multi` (aper.c lines
480-495): under `SEP_MASK_IGNORE`, `area[j] -= maskarea[j]`; otherwise
rescale `sum`/`sumvar` by `area/(area−maskarea)`, with factor 0 when
`area == maskarea` exactly. -/
noncomputable def maskCorrect (n : ℤ) (maskIgnore : Bool) (b : Bins) : Bins :=
  if maskIgnore then
    { b with
      area := fun j => if 0 ≤ j ∧ j < n then b.area j - b.maskarea j
        else b.area j }
  else
    { b with
      sum := fun j => if 0 ≤ j ∧ j < n then
          b.sum j * (if b.area j = b.maskarea j then 0
            else b.area j / (b.area j - b.maskarea j))
        else b.sum j,
      sumvar := fun j => if 0 ≤ j ∧ j < n then
          b.sumvar j * (if b.area j = b.maskarea j then 0
            else b.area j / (b.area j - b.maskarea j))
        else b.sumvar j }

/-- Poisson variance addition (aper.c lines 498-501): when `gain > 0`,
`sumvar[j] += sum[j]/gain` for every bin with `sum[j] > 0`. -/
noncomputable def poisson (n : ℤ) (gain : ℝ) (b : Bins) : Bins :=
  if 0 < gain then
    { b with
      sumvar := fun j => if 0 ≤ j ∧ j < n ∧ 0 < b.sum j
        then b.sumvar j + b.sum j / gain else b.sumvar j }
  else b

/-- `sep_sum_circann_multi` (aper.c lines 312-513).  `convOk` is the
recognition oracle of `get_converter` (`sepcore.c`, absent from the
provided sources; per the spec it fails for unrecognized format tags).
`b0` and `f0` are the prior contents of the caller's output arrays and
flag, so that what the call leaves untouched is visible. -/
noncomputable def sep_sum_circann_multi (convOk : ℤ → Bool) (P : ApCall)
    (b0 : Bins) (f0 : Flags) : Status × Bins × Flags :=
  if P.rmax < 0 ∨ P.n < 1 then (.illegalAperParams, b0, f0)
  else if P.subpix < 1 then (.illegalSubpix, b0, f0)
  else
    let cleared : Bins :=
      ⟨zeroN P.n b0.sum, zeroN P.n b0.sumvar, zeroN P.n b0.area,
       if P.hasMask then zeroN P.n b0.maskarea else b0.maskarea⟩
    if ¬ convOk P.dtype = true then (.unsupportedPixelFormat, cleared, Flags.clear)
    else if P.hasErr = true ∧ ¬ convOk P.edtype = true then
      (.unsupportedPixelFormat, cleared, Flags.clear)
    else if P.hasMask = true ∧ ¬ convOk P.mdtype = true then
      (.unsupportedPixelFormat, cleared, Flags.clear)
    else
      let bx := boxextent P.x P.y (P.rmax + 3/2) (P.rmax + 3/2) P.w P.h Flags.clear
      let scanned := scanBox (multiPixCode P) bx.1 (cleared, bx.2)
      let corrected := if P.hasMask then
          maskCorrect P.n P.maskIgnoreBit scanned.1
        else scanned.1
      (.ok, poisson P.n P.gain corrected, scanned.2)

/-- The same pipeline with the scan phase replaced by the C1 claim's
per-pixel description (`multiPixClaim`); compared against
`sep_sum_circann_multi` by the C1 theorem. -/
noncomputable def sep_sum_circann_multi_claim (convOk : ℤ → Bool) (P : ApCall)
    (b0 : Bins) (f0 : Flags) : Status × Bins × Flags :=
  if P.rmax < 0 ∨ P.n < 1 then (.illegalAperParams, b0, f0)
  else if P.subpix < 1 then (.illegalSubpix, b0, f0)
  else
    let cleared : Bins :=
      ⟨zeroN P.n b0.sum, zeroN P.n b0.sumvar, zeroN P.n b0.area,
       if P.hasMask then zeroN P.n b0.maskarea else b0.maskarea⟩
    if ¬ convOk P.dtype = true then (.unsupportedPixelFormat, cleared, Flags.clear)
    else if P.hasErr = true ∧ ¬ convOk P.edtype = true then
      (.unsupportedPixelFormat, cleared, Flags.clear)
    else if P.hasMask = true ∧ ¬ convOk P.mdtype = true then
      (.unsupportedPixelFormat, cleared, Flags.clear)
    else
      let bx := boxextent P.x P.y (P.rmax + 3/2) (P.rmax + 3/2) P.w P.h Flags.clear
      let scanned := scanBox (multiPixClaim P) bx.1 (cleared, bx.2)
      let corrected := if P.hasMask then
          maskCorrect P.n P.maskIgnoreBit scanned.1
        else scanned.1
      (.ok, poisson P.n P.gain corrected, scanned.2)

/-! ## Kron radius `sep_kron_radius` (aper.c lines 583-665) -/

/-- Accumulators of the Kron scan: `r1 = Σ √rpix2 · pix`,
`v1 = Σ pix`, `area` = count of accepted pixels, plus the flag word. -/
structure KronAcc where
  r1 : ℝ
  v1 : ℝ
  area : ℝ
  flag : Flags

/-- The inputs of one `sep_kron_radius` call.  The data and mask buffers
are embedded post-conversion; `big` is the sentinel bad-pixel floor
`BIG` of `sepcore.h` (absent from the provided sources), kept as a
parameter. -/
structure KronIn where
  data : ℤ → ℝ
  mask : ℤ → ℝ
  hasMask : Bool
  w : ℤ
  h : ℤ
  maskthresh : ℝ
  x : ℝ
  y : ℝ
  cxx : ℝ
  cyy : ℝ
  cxy : ℝ
  r : ℝ
  big : ℝ

/-- One pixel of the Kron scan (aper.c lines 623-646). -/
noncomputable def kronPix (K : KronIn) (iy ix : ℤ) (st : KronAcc) : KronAcc :=
  let pos := kronPos K.h K.w iy ix
  let dx := (ix : ℝ) - K.x
  let dy := (iy : ℝ) - K.y
  let rpix2 := K.cxx * dx * dx + K.cyy * dy * dy + K.cxy * dx * dy
  if rpix2 ≤ K.r * K.r then
    let pix := K.data pos
    if pix < -K.big ∨ (K.hasMask = true ∧ K.maskthresh < K.mask pos) then
      { st with flag := { st.flag with hasmasked := true } }
    else
      { st with
        r1 := st.r1 + Real.sqrt rpix2 * pix,
        v1 := st.v1 + pix,
        area := st.area + 1 }
  else st

/-- Whether one pixel position is accepted by the Kron scan: inside the
ellipse, not below the bad-pixel floor, not masked. -/
noncomputable def kronQualifies (K : KronIn) (iy ix : ℤ) : Prop :=
  let pos := kronPos K.h K.w iy ix
  let dx := (ix : ℝ) - K.x
  let dy := (iy : ℝ) - K.y
  let rpix2 := K.cxx * dx * dx + K.cyy * dy * dy + K.cxy * dx * dy
  rpix2 ≤ K.r * K.r
  ∧ ¬ (K.data pos < -K.big ∨ (K.hasMask = true ∧ K.maskthresh < K.mask pos))

/-- The clamped elliptical bounding box of a Kron scan. -/
noncomputable def kronBox (K : KronIn) : Box × Flags :=
  boxextent_ellipse K.x K.y K.cxx K.cyy K.cxy K.r K.w K.h Flags.clear

/-- The full Kron scan over the (clamped) elliptical bounding box. -/
noncomputable def kronAccum (K : KronIn) : KronAcc :=
  (intRange (kronBox K).1.ymin (kronBox K).1.ymax).foldl (fun a iy =>
    (intRange (kronBox K).1.xmin (kronBox K).1.xmax).foldl (fun a2 ix =>
      kronPix K iy ix a2) a)
    ⟨0, 0, 0, (kronBox K).2⟩

/-- `sep_kron_radius` (aper.c lines 583-665).  `kr0` is the prior content
of the caller's `kronrad` out-parameter; `convOk` is the recognition
oracle of `get_converter` as in `sep_sum_circann_multi`. -/
noncomputable def sep_kron_radius (convOk : ℤ → Bool) (K : KronIn)
    (dtype mdtype : ℤ) (kr0 : ℝ) : Status × ℝ × Flags :=
  if ¬ convOk dtype = true then (.unsupportedPixelFormat, kr0, Flags.clear)
  else if K.hasMask = true ∧ ¬ convOk mdtype = true then
    (.unsupportedPixelFormat, kr0, Flags.clear)
  else
    let acc := kronAccum K
    if acc.area = 0 then (.ok, 0, { acc.flag with allmasked := true })
    else if acc.r1 ≤ 0 ∨ acc.v1 ≤ 0 then
      (.ok, 0, { acc.flag with nonpositive := true })
    else (.ok, acc.r1 / acc.v1, acc.flag)

/-! ## Ellipse rasterizer `sep_set_ellipse` (aper.c lines 669-696) -/

/-- `sep_set_ellipse`: overwrite every array element inside the ellipse
with `val`. -/
noncomputable def sep_set_ellipse (arr : ℤ → ℤ) (w h : ℤ)
    (x y cxx cyy cxy r : ℝ) (val : ℤ) : ℤ → ℤ :=
  let bx := boxextent_ellipse x y cxx cyy cxy r w h Flags.clear
  (intRange bx.1.ymin bx.1.ymax).foldl (fun (a : ℤ → ℤ) (yi : ℤ) =>
    (intRange bx.1.xmin bx.1.xmax).foldl (fun (a2 : ℤ → ℤ) (xi : ℤ) =>
      let dx := (xi : ℝ) - x
      let dy := (yi : ℝ) - y
      if cxx * dx * dx + cyy * (dy * dy) + cxy * dx * dy ≤ r * r then
        Function.update a2 (rasterPos w yi xi) val
      else a2) a) arr

/-! ## Basic lemmas -/

theorem ctrunc_eq_floor {α : Type} [LinearOrderedField α] [FloorRing α]
    {v : α} (h : 0 ≤ v) : ctrunc v = ⌊v⌋ := if_pos h

theorem mem_intRange {lo hi iy : ℤ} :
    iy ∈ intRange lo hi ↔ lo ≤ iy ∧ iy < hi := by
  constructor
  · intro h
    obtain ⟨k, hk, hke⟩ := List.mem_map.1 h
    rw [List.mem_range] at hk
    omega
  · intro h
    refine List.mem_map.2 ⟨(iy - lo).toNat, ?_, ?_⟩
    · rw [List.mem_range]
      omega
    · omega

theorem boxextent_ymin_nonneg {α : Type} [LinearOrderedField α] [FloorRing α]
    (x y rx ry : α) (w h : ℤ) (f : Flags) :
    0 ≤ ((boxextent x y rx ry w h f).1).ymin := by
  unfold boxextent
  dsimp only
  split <;> omega

theorem boxextent_ymax_le {α : Type} [LinearOrderedField α] [FloorRing α]
    (x y rx ry : α) (w h : ℤ) (f : Flags) :
    ((boxextent x y rx ry w h f).1).ymax ≤ h := by
  unfold boxextent
  dsimp only
  split <;> omega

theorem foldl_add_eq_sum {α : Type} [LinearOrderedField α] (y : List α) :
    y.foldl (· + ·) 0 = y.sum := by
  rw [List.sum_eq_foldl]

/-! ## Lemmas on the `sep_ppf` scan -/

/-- Master invariant of the `sep_ppf` scan loop, by induction on the
remaining profile: index bounds, the accumulated value as a prefix sum,
all strictly-earlier prefixes below the target, and the target reached
whenever the scan stopped before exhausting the list. -/
theorem ppfScan_spec {α : Type} [LinearOrderedField α] (targ : α)
    (l : List α) :
    ∀ (c : α) (i : ℕ),
      i ≤ (ppfScan targ l c i).2
      ∧ (ppfScan targ l c i).2 ≤ i + l.length
      ∧ (ppfScan targ l c i).1 = c + (l.take ((ppfScan targ l c i).2 - i)).sum
      ∧ (∀ m, i ≤ m → m < (ppfScan targ l c i).2 →
          c + (l.take (m - i)).sum < targ)
      ∧ ((ppfScan targ l c i).2 < i + l.length → targ ≤ (ppfScan targ l c i).1) := by
  induction l with
  | nil =>
      intro c i
      refine ⟨le_refl i, by simp [ppfScan], by simp [ppfScan], ?_, by simp [ppfScan]⟩
      intro m hm1 hm2
      simp only [ppfScan] at hm2
      omega
  | cons v rest ih =>
      intro c i
      by_cases hc : c < targ
      · have h2 := ih (c + v) (i + 1)
        obtain ⟨ha, hb, hval, hlt, hstop⟩ := h2
        have hrw : ppfScan targ (v :: rest) c i = ppfScan targ rest (c + v) (i + 1) := by
          simp [ppfScan, hc]
        rw [hrw]
        refine ⟨by omega, by simp only [List.length_cons]; omega, ?_, ?_, ?_⟩
        · have hdiff : (ppfScan targ rest (c + v) (i + 1)).2 - i
              = ((ppfScan targ rest (c + v) (i + 1)).2 - (i + 1)) + 1 := by omega
          rw [hdiff, List.take_succ_cons, List.sum_cons, hval]
          ring
        · intro m hm1 hm2
          rcases Nat.eq_or_lt_of_le hm1 with heq | hlt2
          · subst heq
            simpa using hc
          · have hdiff : m - i = (m - (i + 1)) + 1 := by omega
            rw [hdiff, List.take_succ_cons, List.sum_cons]
            have := hlt m (by omega) hm2
            calc c + (v + (rest.take (m - (i + 1))).sum)
                = c + v + (rest.take (m - (i + 1))).sum := by ring
              _ < targ := this
        · intro hlen
          exact hstop (by simp only [List.length_cons] at hlen; omega)
      · have hrw : ppfScan targ (v :: rest) c i = (c, i) := by
          simp [ppfScan, hc]
        rw [hrw]
        refine ⟨le_refl i, by simp, by simp, ?_, fun _ => not_lt.mp hc⟩
        intro m hm1 hm2
        omega

/-- The scan of `sep_ppf` from its initial state: the exit index is at
most `n`, the accumulator is the prefix sum at the exit index, all
earlier prefixes are below the target, and an early exit means the
target was reached. -/
theorem ppfScan_main {α : Type} [LinearOrderedField α] (targ : α) (y : List α) :
    (ppfScan targ y 0 0).2 ≤ y.length
    ∧ (ppfScan targ y 0 0).1 = (y.take (ppfScan targ y 0 0).2).sum
    ∧ (∀ m, m < (ppfScan targ y 0 0).2 → (y.take m).sum < targ)
    ∧ ((ppfScan targ y 0 0).2 < y.length → targ ≤ (ppfScan targ y 0 0).1) := by
  have h := ppfScan_spec targ y 0 0
  obtain ⟨_, hb, hval, hlt, hstop⟩ := h
  refine ⟨by simpa using hb, by simpa using hval, ?_, by simpa using hstop⟩
  intro m hm
  have := hlt m (Nat.zero_le m) hm
  simpa using this

/-- When the target is not positive the scan exits immediately. -/
theorem ppfScan_exit_zero {α : Type} [LinearOrderedField α] {targ : α}
    (h : targ ≤ 0) (y : List α) : ppfScan targ y 0 0 = (0, 0) := by
  cases y with
  | nil => rfl
  | cons v rest => simp [ppfScan, not_lt.mpr h]

/-- The scan exits exactly at the smallest prefix length whose sum
reaches the target, when such a prefix exists. -/
theorem ppfScan_exit_at {α : Type} [LinearOrderedField α] {targ : α}
    {y : List α} {i : ℕ} (hle : i ≤ y.length)
    (hbefore : ∀ m, m < i → (y.take m).sum < targ)
    (hreach : targ ≤ (y.take i).sum) :
    (ppfScan targ y 0 0).2 = i := by
  obtain ⟨hb, hval, hlt, hstop⟩ := ppfScan_main targ y
  by_contra hne
  rcases Nat.lt_or_ge (ppfScan targ y 0 0).2 i with hlt2 | hge
  · have h1 : (ppfScan targ y 0 0).2 < y.length := lt_of_lt_of_le hlt2 hle
    have h2 := hstop h1
    rw [hval] at h2
    exact absurd h2 (not_le.mpr (hbefore _ hlt2))
  · have h3 : i < (ppfScan targ y 0 0).2 := lt_of_le_of_ne hge (fun h => hne h.symm)
    exact absurd hreach (not_le.mpr (hlt i h3))

/-- When no proper prefix (of length `< n`) reaches the target, the
scan exhausts the whole profile. -/
theorem ppfScan_exit_full {α : Type} [LinearOrderedField α] {targ : α}
    {y : List α} (hbefore : ∀ m, m < y.length → (y.take m).sum < targ) :
    (ppfScan targ y 0 0).2 = y.length := by
  obtain ⟨hb, hval, hlt, hstop⟩ := ppfScan_main targ y
  rcases Nat.lt_or_ge (ppfScan targ y 0 0).2 y.length with h1 | h2
  · have := hstop h1
    rw [hval] at this
    exact absurd this (not_le.mpr (hbefore _ h1))
  · omega

/-! ## C3: `sep_ppf` branch behaviour -/

/-- C3 (counterexample): for four equal bins of 10 and fraction 0.9, the
smallest count reaching `0.9·40 = 36` is 4, so the claim's interpolation
case predicts `step·(4 + (36−40)/10) = 18/5`; the code saturates to
`xmax = 4` because the scan exhausted the array. -/
theorem ppf_claim_refuted :
    sep_ppf_one (4 : ℚ) [10, 10, 10, 10] (9/10) = 4
    ∧ ppfClaimSpec (4 : ℚ) [10, 10, 10, 10] (9/10) = 18/5
    ∧ (4 : ℚ) ≠ 18/5 := by
  refine ⟨?_, ?_, by norm_num⟩
  · norm_num [sep_ppf_one, ppfScan]
  · norm_num [ppfClaimSpec, firstReach, List.take]

/-- C3 (amended): `sep_ppf` per fraction returns 0 when the cumulative
condition holds already at count 0 (`f·S ≤ 0`); `xmax` whenever the scan
exhausts the array, i.e. when no count `< n` of bins reaches `f·S`
(whether or not the full sum does); and otherwise, at the smallest count
`i` (with `0 < i < n`) whose cumulative sum reaches `f·S`, the
interpolated radius `step·(i + (f·S − cumsum_i)/y[i−1])`. -/
theorem ppf_branches {α : Type} [LinearOrderedField α]
    (xmax : α) (y : List α) (f : α) :
    (f * y.sum ≤ 0 → sep_ppf_one xmax y f = 0)
    ∧ (0 < y.length → (∀ m, m < y.length → (y.take m).sum < f * y.sum) →
        sep_ppf_one xmax y f = xmax)
    ∧ (∀ i : ℕ, 0 < i → i < y.length →
        (∀ m, m < i → (y.take m).sum < f * y.sum) →
        f * y.sum ≤ (y.take i).sum →
        sep_ppf_one xmax y f
          = xmax / (y.length : α)
            * ((i : α) + (f * y.sum - (y.take i).sum) / y.getD (i - 1) 0)) := by
  refine ⟨?_, ?_, ?_⟩
  · intro h
    simp only [sep_ppf_one, foldl_add_eq_sum]
    rw [ppfScan_exit_zero h]
    simp
  · intro hn hall
    simp only [sep_ppf_one, foldl_add_eq_sum]
    rw [ppfScan_exit_full hall, if_neg (by omega), if_pos rfl]
  · intro i h0 hn hbefore hreach
    have hexit := ppfScan_exit_at (le_of_lt hn) hbefore hreach
    have hval := (ppfScan_main (f * y.sum) y).2.1
    rw [hexit] at hval
    simp only [sep_ppf_one, foldl_add_eq_sum]
    rw [hexit, hval, if_neg (by omega), if_neg (by omega)]

/-- C3 (witness): the claim's own examples, four equal bins of 10 with
`xmax = 4`, via the amended theorem: fraction 1/2 yields `2·step = 2`,
fraction 0 yields 0, fraction 1 yields `xmax`. -/
theorem ppf_branches_check :
    sep_ppf_one (4 : ℚ) [10, 10, 10, 10] (1/2) = 2
    ∧ sep_ppf_one (4 : ℚ) [10, 10, 10, 10] 0 = 0
    ∧ sep_ppf_one (4 : ℚ) [10, 10, 10, 10] 1 = 4 := by
  refine ⟨?_, ?_, ?_⟩
  · have h := (ppf_branches (4 : ℚ) [10, 10, 10, 10] (1/2)).2.2 2
      (by norm_num) (by norm_num)
      (by intro m hm; interval_cases m <;> norm_num [List.take])
      (by norm_num [List.take])
    rw [h]
    norm_num [List.take]
  · exact (ppf_branches (4 : ℚ) [10, 10, 10, 10] 0).1 (by norm_num)
  · have h := (ppf_branches (4 : ℚ) [10, 10, 10, 10] 1).2.1
      (by norm_num)
      (by
        intro m hm
        simp only [List.length_cons, List.length_nil] at hm
        interval_cases m <;> norm_num [List.take])
    exact h

/-- C10 (confirmed): when the interpolation branch of `sep_ppf` is
reached — the scan stops at a count `i` with `0 < i < n` — and the
profile values are non-negative with a positive target, the divisor
`y[i−1]` is strictly positive: it is the bin that raised the cumulative
sum from below the target to at or above it. -/
theorem ppf_divisor_pos {α : Type} [LinearOrderedField α]
    (y : List α) (f : α)
    (hy : ∀ v ∈ y, 0 ≤ v) (hpos : 0 < f * y.sum) (i : ℕ)
    (hexit : (ppfScan (f * y.sum) y 0 0).2 = i)
    (h0 : 0 < i) (hn : i < y.length) :
    0 < y.getD (i - 1) 0 := by
  obtain ⟨hb, hval, hlt, hstop⟩ := ppfScan_main (f * y.sum) y
  have hreach : f * y.sum ≤ (y.take i).sum := by
    have := hstop (by omega)
    rw [hval, hexit] at this
    exact this
  have hbefore : (y.take (i - 1)).sum < f * y.sum := hlt (i - 1) (by omega)
  have hlen : i - 1 < y.length := by omega
  have hsucc : (y.take ((i - 1) + 1)).sum = (y.take (i - 1)).sum + y[i - 1] :=
    List.sum_take_succ y (i - 1) hlen
  have hgd : y.getD (i - 1) 0 = y[i - 1] := List.getD_eq_getElem y 0 hlen
  have hi : (i - 1) + 1 = i := by omega
  rw [hi] at hsucc
  rw [hgd]
  have : (y.take (i - 1)).sum + y[i - 1] ≥ f * y.sum := by rw [← hsucc]; exact hreach
  linarith

/-- C10 (witness): four equal bins of 10 with fraction 1/2: the scan
stops at count 2 and the divisor `y[1] = 10` is positive. -/
theorem ppf_divisor_pos_check :
    0 < ([10, 10, 10, 10] : List ℚ).getD 1 0 :=
  ppf_divisor_pos [10, 10, 10, 10] (1/2)
    (by
      intro v hv
      simp only [List.mem_cons, List.not_mem_nil, or_false] at hv
      rcases hv with rfl | rfl | rfl | rfl <;> norm_num)
    (by norm_num)
    2
    (by norm_num [ppfScan])
    (by norm_num)
    (by norm_num)

/-! ## C4: box extent -/

/-- C4 (counterexample): at `x = 0.2`, `rx = 1` the raw lower bound is
`0.2 − 1 + 0.5 = −0.3`; its floor is `−1 < 0`, so the claim's geometric
box extends below 0 and the claim requires the truncation flag — but the
C `(int)` cast truncates `−0.3` to `0` and the code leaves the flag
clear. -/
theorem boxextent_claim_refuted :
    (boxextent (1/5 : ℚ) 5 1 1 10 10 Flags.clear).2.trunc = false
    ∧ ⌊(1/5 : ℚ) - 1 + 1/2⌋ < 0 := by
  have c1 : ctrunc ((1/5 : ℚ) - 1 + 1/2) = 0 := by
    rw [show (1/5 : ℚ) - 1 + 1/2 = -(3/10) by norm_num]
    rw [ctrunc, if_neg (by norm_num), Int.ceil_neg]
    norm_num
  have c2 : ctrunc ((1/5 : ℚ) + 1 + 14999999/10000000) = 2 := by
    rw [ctrunc, if_pos (by norm_num)]
    norm_num
  have c3 : ctrunc ((5 : ℚ) - 1 + 1/2) = 4 := by
    rw [ctrunc, if_pos (by norm_num)]
    norm_num
  have c4 : ctrunc ((5 : ℚ) + 1 + 14999999/10000000) = 7 := by
    rw [ctrunc, if_pos (by norm_num)]
    norm_num
  constructor
  · unfold boxextent
    dsimp only
    rw [c1, c2, c3, c4]
    rfl
  · norm_num

/-- C4 (amended): the box-extent computation derives each raw bound with
the C `(int)` cast — truncation toward zero, `ctrunc`, which agrees with
floor only for non-negative arguments — and sets the truncation flag iff
one of those truncated bounds extends beyond `[0,w) × [0,h)`; the bounds
are clamped to the image and the other flag bits pass through. -/
theorem boxextent_spec {α : Type} [LinearOrderedField α] [FloorRing α]
    (x y rx ry : α) (w h : ℤ) (f0 : Flags) :
    (boxextent x y rx ry w h f0).1
      = ⟨max 0 (ctrunc (x - rx + 1/2)),
         min w (ctrunc (x + rx + 14999999/10000000)),
         max 0 (ctrunc (y - ry + 1/2)),
         min h (ctrunc (y + ry + 14999999/10000000))⟩
    ∧ ((boxextent x y rx ry w h f0).2.trunc = true ↔
        (f0.trunc = true ∨ ctrunc (x - rx + 1/2) < 0
         ∨ w < ctrunc (x + rx + 14999999/10000000)
         ∨ ctrunc (y - ry + 1/2) < 0
         ∨ h < ctrunc (y + ry + 14999999/10000000)))
    ∧ (boxextent x y rx ry w h f0).2.hasmasked = f0.hasmasked
    ∧ (boxextent x y rx ry w h f0).2.allmasked = f0.allmasked
    ∧ (boxextent x y rx ry w h f0).2.nonpositive = f0.nonpositive := by
  have hmax : ∀ a : ℤ, (if a < 0 then (0 : ℤ) else a) = max 0 a := by
    intro a
    rcases lt_or_le a 0 with h1 | h1
    · rw [if_pos h1]
      omega
    · rw [if_neg (not_lt.mpr h1)]
      omega
  have hmin : ∀ (u a : ℤ), (if a > u then u else a) = min u a := by
    intro u a
    rcases lt_or_le u a with h1 | h1
    · rw [if_pos h1]
      omega
    · rw [if_neg (not_lt.mpr h1)]
      omega
  unfold boxextent
  refine ⟨?_, ?_, rfl, rfl, rfl⟩
  · dsimp only
    rw [hmax, hmin, hmax, hmin]
  · dsimp only
    simp only [Bool.or_eq_true, decide_eq_true_eq]
    tauto

/-- C4 (witness): the amended theorem instantiated at the
counterexample's concrete call. -/
theorem boxextent_spec_check :
    (boxextent (1/5 : ℚ) 5 1 1 10 10 Flags.clear).1
      = ⟨max 0 (ctrunc ((1/5 : ℚ) - 1 + 1/2)),
         min 10 (ctrunc ((1/5 : ℚ) + 1 + 14999999/10000000)),
         max 0 (ctrunc ((5 : ℚ) - 1 + 1/2)),
         min 10 (ctrunc ((5 : ℚ) + 1 + 14999999/10000000))⟩ :=
  (boxextent_spec (1/5 : ℚ) 5 1 1 10 10 Flags.clear).1

/-! ## C2: mask correction of `sep_sum_circann_multi` -/

/-- C2 (confirmed): the mask-correction step of `sep_sum_circann_multi`
(applied when a mask buffer is supplied): under `SEP_MASK_IGNORE` each
bin's area drops by exactly that bin's maskarea while sum/sumvar are
unchanged; under the rescale policy each bin's sum and sumvar are
multiplied by `area/(area−maskarea)` — with factor 0 instead when
`area = maskarea` exactly, so they become 0 — and area is unchanged. -/
theorem maskCorrect_spec (n : ℤ) (b : Bins) (j : ℤ)
    (h0 : 0 ≤ j) (hn : j < n) :
    ((maskCorrect n true b).area j = b.area j - b.maskarea j
      ∧ (maskCorrect n true b).sum j = b.sum j
      ∧ (maskCorrect n true b).sumvar j = b.sumvar j
      ∧ (maskCorrect n true b).maskarea j = b.maskarea j)
    ∧ (b.area j ≠ b.maskarea j →
        (maskCorrect n false b).sum j
          = b.sum j * (b.area j / (b.area j - b.maskarea j))
        ∧ (maskCorrect n false b).sumvar j
          = b.sumvar j * (b.area j / (b.area j - b.maskarea j)))
    ∧ (b.area j = b.maskarea j →
        (maskCorrect n false b).sum j = 0
        ∧ (maskCorrect n false b).sumvar j = 0)
    ∧ (maskCorrect n false b).area j = b.area j
    ∧ (maskCorrect n false b).maskarea j = b.maskarea j := by
  refine ⟨⟨?_, ?_, ?_, ?_⟩, ?_, ?_, ?_, ?_⟩
  · simp [maskCorrect, h0, hn]
  · simp [maskCorrect]
  · simp [maskCorrect]
  · simp [maskCorrect]
  · intro hne
    constructor
    · simp [maskCorrect, h0, hn, hne]
    · simp [maskCorrect, h0, hn, hne]
  · intro heq
    constructor
    · simp [maskCorrect, h0, hn, heq]
    · simp [maskCorrect, h0, hn, heq]
  · simp [maskCorrect]
  · simp [maskCorrect]

/-- C2 (witness): one bin with `area = 2`, `maskarea = 1`, `sum = 3`,
`sumvar = 5`: ignore policy leaves sum at 3 and drops area to 1; the
rescale policy scales sum to `3·(2/1) = 6`; and with `area = maskarea`
(the all-masked bin `area = maskarea = 2`) sum becomes 0. -/
theorem maskCorrect_spec_check :
    (maskCorrect 1 true ⟨fun _ => 3, fun _ => 5, fun _ => 2, fun _ => 1⟩).area 0
      = (1 : ℝ)
    ∧ (maskCorrect 1 true ⟨fun _ => 3, fun _ => 5, fun _ => 2, fun _ => 1⟩).sum 0
      = (3 : ℝ)
    ∧ (maskCorrect 1 false ⟨fun _ => 3, fun _ => 5, fun _ => 2, fun _ => 1⟩).sum 0
      = (6 : ℝ)
    ∧ (maskCorrect 1 false ⟨fun _ => 3, fun _ => 5, fun _ => 2, fun _ => 2⟩).sum 0
      = (0 : ℝ) := by
  have h1 := maskCorrect_spec 1 ⟨fun _ => 3, fun _ => 5, fun _ => 2, fun _ => 1⟩ 0
    (by norm_num) (by norm_num)
  have h2 := maskCorrect_spec 1 ⟨fun _ => 3, fun _ => 5, fun _ => 2, fun _ => 2⟩ 0
    (by norm_num) (by norm_num)
  refine ⟨?_, ?_, ?_, ?_⟩
  · rw [h1.1.1]
    norm_num
  · rw [h1.1.2.1]
  · rw [(h1.2.1 (by norm_num)).1]
    norm_num
  · exact (h2.2.2.1 rfl).1

/-! ## C8: failure paths of `sep_sum_circann_multi` -/

/-- C8 (counterexample): with no mask buffer supplied and a data
converter that fails to resolve, the call returns
`UnsupportedPixelFormat` with `sum` zeroed but `maskarea` left at its
prior contents (here 7) — so on a converter failure the four output
arrays are not all "fully zeroed". -/
theorem circann_multi_failure_refuted :
    (sep_sum_circann_multi (fun _ => false)
        ⟨fun _ => 0, false, fun _ => 0, false, fun _ => 0, 0, 0, 0, 10, 10,
         0, 0, false, false, false, 0, 0, 1, 1, 1⟩
        ⟨fun _ => 7, fun _ => 7, fun _ => 7, fun _ => 7⟩ Flags.clear).1
      = .unsupportedPixelFormat
    ∧ (sep_sum_circann_multi (fun _ => false)
        ⟨fun _ => 0, false, fun _ => 0, false, fun _ => 0, 0, 0, 0, 10, 10,
         0, 0, false, false, false, 0, 0, 1, 1, 1⟩
        ⟨fun _ => 7, fun _ => 7, fun _ => 7, fun _ => 7⟩ Flags.clear).2.1.sum 0
      = 0
    ∧ (sep_sum_circann_multi (fun _ => false)
        ⟨fun _ => 0, false, fun _ => 0, false, fun _ => 0, 0, 0, 0, 10, 10,
         0, 0, false, false, false, 0, 0, 1, 1, 1⟩
        ⟨fun _ => 7, fun _ => 7, fun _ => 7, fun _ => 7⟩ Flags.clear).2.1.maskarea 0
      = 7 := by
  refine ⟨?_, ?_, ?_⟩ <;>
    norm_num [sep_sum_circann_multi, zeroN]

/-- C8 (amended): every failure of `sep_sum_circann_multi` is decided
before the pixel scan: `IllegalApertureParams` iff `rmax < 0` or
`n < 1`; `IllegalSubpixel` iff those pass and `subpix < 1`;
`UnsupportedPixelFormat` iff both pass and a requested converter fails
to resolve.  On the first two (raised before the clearing memset) all
four output arrays and the flag are untouched; on a converter failure
`sum`, `sumvar` and `area` are fully zeroed, and `maskarea` is zeroed
when a mask buffer is supplied but left untouched otherwise. -/
theorem circann_multi_failures (convOk : ℤ → Bool) (P : ApCall)
    (b0 : Bins) (f0 : Flags) :
    ((sep_sum_circann_multi convOk P b0 f0).1 = .illegalAperParams
      ↔ (P.rmax < 0 ∨ P.n < 1))
    ∧ ((sep_sum_circann_multi convOk P b0 f0).1 = .illegalSubpix
      ↔ (¬ (P.rmax < 0 ∨ P.n < 1) ∧ P.subpix < 1))
    ∧ ((sep_sum_circann_multi convOk P b0 f0).1 = .unsupportedPixelFormat
      ↔ (¬ (P.rmax < 0 ∨ P.n < 1) ∧ ¬ P.subpix < 1
          ∧ (¬ convOk P.dtype = true
             ∨ (P.hasErr = true ∧ ¬ convOk P.edtype = true)
             ∨ (P.hasMask = true ∧ ¬ convOk P.mdtype = true))))
    ∧ (((sep_sum_circann_multi convOk P b0 f0).1 = .illegalAperParams
        ∨ (sep_sum_circann_multi convOk P b0 f0).1 = .illegalSubpix) →
        (sep_sum_circann_multi convOk P b0 f0).2.1 = b0
        ∧ (sep_sum_circann_multi convOk P b0 f0).2.2 = f0)
    ∧ ((sep_sum_circann_multi convOk P b0 f0).1 = .unsupportedPixelFormat →
        (sep_sum_circann_multi convOk P b0 f0).2.1.sum = zeroN P.n b0.sum
        ∧ (sep_sum_circann_multi convOk P b0 f0).2.1.sumvar = zeroN P.n b0.sumvar
        ∧ (sep_sum_circann_multi convOk P b0 f0).2.1.area = zeroN P.n b0.area
        ∧ (P.hasMask = true →
            (sep_sum_circann_multi convOk P b0 f0).2.1.maskarea
              = zeroN P.n b0.maskarea)
        ∧ (P.hasMask = false →
            (sep_sum_circann_multi convOk P b0 f0).2.1.maskarea = b0.maskarea)) := by
  unfold sep_sum_circann_multi
  split_ifs with h1 h2 h3 h4 h5 <;> simp_all

/-- C8 (witness): a parameter-validation failure (`rmax = −1`) leaves
all outputs untouched, via the amended theorem. -/
theorem circann_multi_failures_check :
    (sep_sum_circann_multi (fun _ => true)
        ⟨fun _ => 0, false, fun _ => 0, false, fun _ => 0, 0, 0, 0, 10, 10,
         0, 0, false, false, false, 0, 0, -1, 1, 1⟩
        ⟨fun _ => 7, fun _ => 7, fun _ => 7, fun _ => 7⟩ Flags.clear).2.1
      = ⟨fun _ => 7, fun _ => 7, fun _ => 7, fun _ => 7⟩ :=
  ((circann_multi_failures (fun _ => true)
      ⟨fun _ => 0, false, fun _ => 0, false, fun _ => 0, 0, 0, 0, 10, 10,
       0, 0, false, false, false, 0, 0, -1, 1, 1⟩
      ⟨fun _ => 7, fun _ => 7, fun _ => 7, fun _ => 7⟩ Flags.clear).2.2.2.1
    (Or.inl (((circann_multi_failures (fun _ => true)
      ⟨fun _ => 0, false, fun _ => 0, false, fun _ => 0, 0, 0, 0, 10, 10,
       0, 0, false, false, false, 0, 0, -1, 1, 1⟩
      ⟨fun _ => 7, fun _ => 7, fun _ => 7, fun _ => 7⟩ Flags.clear).1).mpr
      (Or.inl (by norm_num))))).1

/-! ## C9: windowed row addressing -/

/-- C9 (confirmed): every row the scanning operations iterate lies in
the clamped box, and for each such row the flat index used by the
multi-annulus summation, the Kron estimator, and the ellipse rasterizer
equals `(iy % h) * w + ix` — the first two by their definition, the
rasterizer because the clamped row range makes `iy % h = iy`. -/
theorem row_addressing {α : Type} [LinearOrderedField α] [FloorRing α]
    (x y rx ry : α) (w h : ℤ) (f0 : Flags) (iy : ℤ)
    (hlo : ((boxextent x y rx ry w h f0).1).ymin ≤ iy)
    (hhi : iy < ((boxextent x y rx ry w h f0).1).ymax) :
    (∀ ix : ℤ, rasterPos w iy ix = (iy % h) * w + ix)
    ∧ (∀ ix : ℤ, multiPos h w iy ix = (iy % h) * w + ix)
    ∧ (∀ ix : ℤ, kronPos h w iy ix = (iy % h) * w + ix) := by
  have hy0 : 0 ≤ iy := le_trans (boxextent_ymin_nonneg x y rx ry w h f0) hlo
  have hyh : iy < h := lt_of_lt_of_le hhi (boxextent_ymax_le x y rx ry w h f0)
  have hmod : iy % h = iy := Int.emod_eq_of_lt hy0 hyh
  refine ⟨fun ix => ?_, fun ix => rfl, fun ix => rfl⟩
  rw [rasterPos, hmod]

/-- C9 (witness): the circle centred at `(2,2)` with radius 1 in a
`10 × 10` image yields rows 1 to 3; row 2 addresses flat index
`(2 % 10)·10 + 5` in all three operations. -/
theorem row_addressing_check :
    rasterPos 10 2 5 = (2 % 10) * 10 + 5
    ∧ multiPos 10 10 2 5 = (2 % 10) * 10 + 5
    ∧ kronPos 10 10 2 5 = (2 % 10) * 10 + 5 := by
  have h := row_addressing (2 : ℚ) 2 1 1 10 10 Flags.clear 2
    (by norm_num [boxextent, ctrunc])
    (by norm_num [boxextent, ctrunc])
  exact ⟨h.1 5, h.2.1 5, h.2.2 5⟩

/-! ## C7: Kron radius degeneracies -/

theorem kronPix_area_pos (K : KronIn) (iy ix : ℤ) (st : KronAcc)
    (hq : kronQualifies K iy ix) :
    (kronPix K iy ix st).area = st.area + 1 := by
  simp only [kronQualifies] at hq
  simp only [kronPix]
  rw [if_pos hq.1, if_neg hq.2]

theorem kronPix_area_neg (K : KronIn) (iy ix : ℤ) (st : KronAcc)
    (hq : ¬ kronQualifies K iy ix) :
    (kronPix K iy ix st).area = st.area := by
  simp only [kronQualifies, not_and, not_not] at hq
  simp only [kronPix]
  by_cases h1 : K.cxx * ((ix : ℝ) - K.x) * ((ix : ℝ) - K.x)
      + K.cyy * ((iy : ℝ) - K.y) * ((iy : ℝ) - K.y)
      + K.cxy * ((ix : ℝ) - K.x) * ((iy : ℝ) - K.y) ≤ K.r * K.r
  · rw [if_pos h1, if_pos (hq h1)]
  · rw [if_neg h1]

theorem kronRow_area (K : KronIn) (iy : ℤ) (l : List ℤ) (st : KronAcc) :
    st.area ≤ (l.foldl (fun a2 ix => kronPix K iy ix a2) st).area
    ∧ ((l.foldl (fun a2 ix => kronPix K iy ix a2) st).area = st.area
        ↔ ∀ ix ∈ l, ¬ kronQualifies K iy ix) := by
  induction l generalizing st with
  | nil => simp
  | cons ix0 l ih =>
      obtain ⟨ihle, ihiff⟩ := ih (kronPix K iy ix0 st)
      rw [List.foldl_cons]
      by_cases hq : kronQualifies K iy ix0
      · have hpa := kronPix_area_pos K iy ix0 st hq
        refine ⟨?_, ?_, ?_⟩
        · rw [hpa] at ihle
          linarith
        · intro heq
          exfalso
          rw [hpa] at ihle
          rw [heq] at ihle
          linarith
        · intro hall
          exact ((hall ix0 (List.mem_cons_self ix0 l)) hq).elim
      · have hpa := kronPix_area_neg K iy ix0 st hq
        constructor
        · rw [hpa] at ihle
          exact ihle
        · rw [← hpa, ihiff, List.forall_mem_cons]
          simp [hq]

theorem kronRows_area (K : KronIn) (rows cols : List ℤ) (st : KronAcc) :
    st.area ≤ (rows.foldl (fun a iy =>
        cols.foldl (fun a2 ix => kronPix K iy ix a2) a) st).area
    ∧ ((rows.foldl (fun a iy =>
          cols.foldl (fun a2 ix => kronPix K iy ix a2) a) st).area = st.area
        ↔ ∀ iy ∈ rows, ∀ ix ∈ cols, ¬ kronQualifies K iy ix) := by
  induction rows generalizing st with
  | nil => simp
  | cons iy0 rows ih =>
      obtain ⟨hrle, hriff⟩ :=
        kronRow_area K iy0 cols st
      obtain ⟨ihle, ihiff⟩ :=
        ih (cols.foldl (fun a2 ix => kronPix K iy0 ix a2) st)
      rw [List.foldl_cons]
      constructor
      · exact le_trans hrle ihle
      · constructor
        · intro heq
          have hrow : (cols.foldl (fun a2 ix => kronPix K iy0 ix a2) st).area
              = st.area := le_antisymm (heq ▸ ihle) hrle
          rw [List.forall_mem_cons]
          refine ⟨hriff.mp hrow, ?_⟩
          exact ihiff.mp (by rw [heq, hrow])
        · intro hall
          rw [List.forall_mem_cons] at hall
          have hrow := hriff.mpr hall.1
          rw [ihiff.mpr hall.2, hrow]

theorem kronAccum_area (K : KronIn) :
    0 ≤ (kronAccum K).area
    ∧ ((kronAccum K).area = 0 ↔
        ∀ iy ∈ intRange (kronBox K).1.ymin (kronBox K).1.ymax,
          ∀ ix ∈ intRange (kronBox K).1.xmin (kronBox K).1.xmax,
            ¬ kronQualifies K iy ix) := by
  obtain ⟨hle, hiff⟩ := kronRows_area K
    (intRange (kronBox K).1.ymin (kronBox K).1.ymax)
    (intRange (kronBox K).1.xmin (kronBox K).1.xmax)
    ⟨0, 0, 0, (kronBox K).2⟩
  exact ⟨hle, hiff⟩

/-- C7 (confirmed): once the converters resolve, `sep_kron_radius`
returns the success status; with zero accumulated area (equivalently, no
pixel of the box is inside the ellipse, above the bad-pixel floor and
unmasked) it sets `AllMasked` and outputs 0; with positive area but
non-positive `Σ(radius·value)` or `Σ(value)` it sets `NonPositive` and
outputs 0; otherwise it outputs the ratio. -/
theorem kron_radius_spec (convOk : ℤ → Bool) (K : KronIn)
    (dtype mdtype : ℤ) (kr0 : ℝ)
    (hd : convOk dtype = true) (hm : K.hasMask = true → convOk mdtype = true) :
    (sep_kron_radius convOk K dtype mdtype kr0).1 = .ok
    ∧ ((kronAccum K).area = 0 →
        (sep_kron_radius convOk K dtype mdtype kr0).2.2.allmasked = true
        ∧ (sep_kron_radius convOk K dtype mdtype kr0).2.1 = 0)
    ∧ (0 < (kronAccum K).area →
        ((kronAccum K).r1 ≤ 0 ∨ (kronAccum K).v1 ≤ 0) →
        (sep_kron_radius convOk K dtype mdtype kr0).2.2.nonpositive = true
        ∧ (sep_kron_radius convOk K dtype mdtype kr0).2.1 = 0)
    ∧ (0 < (kronAccum K).area → 0 < (kronAccum K).r1 → 0 < (kronAccum K).v1 →
        (sep_kron_radius convOk K dtype mdtype kr0).2.1
          = (kronAccum K).r1 / (kronAccum K).v1)
    ∧ 0 ≤ (kronAccum K).area
    ∧ ((kronAccum K).area = 0 ↔
        ∀ iy ∈ intRange (kronBox K).1.ymin (kronBox K).1.ymax,
          ∀ ix ∈ intRange (kronBox K).1.xmin (kronBox K).1.xmax,
            ¬ kronQualifies K iy ix) := by
  obtain ⟨hge, hiff⟩ := kronAccum_area K
  have hc1 : ¬ (¬ convOk dtype = true) := by simp [hd]
  have hc2 : ¬ (K.hasMask = true ∧ ¬ convOk mdtype = true) := by
    rintro ⟨hk, hmk⟩
    exact hmk (hm hk)
  unfold sep_kron_radius
  rw [if_neg hc1, if_neg hc2]
  by_cases ha : (kronAccum K).area = 0
  · rw [if_pos ha]
    refine ⟨rfl, fun _ => ⟨rfl, rfl⟩, ?_, ?_, hge, hiff⟩
    · intro hpos _
      exact absurd ha (by linarith)
    · intro hpos _ _
      exact absurd ha (by linarith)
  · rw [if_neg ha]
    by_cases hnp : (kronAccum K).r1 ≤ 0 ∨ (kronAccum K).v1 ≤ 0
    · rw [if_pos hnp]
      refine ⟨rfl, fun h0 => absurd h0 ha, fun _ _ => ⟨rfl, rfl⟩, ?_, hge, hiff⟩
      intro _ hr1 hv1
      rcases hnp with h | h <;> linarith
    · rw [if_neg hnp]
      refine ⟨rfl, fun h0 => absurd h0 ha, ?_, fun _ _ _ => rfl, hge, hiff⟩
      intro _ hor
      exact absurd hor hnp

/-- C7 (witness): a concrete unmasked call (constant data 1 over a 4×4
image, unit circle at (1,1)) resolves its converters and returns the
success status, via the theorem. -/
theorem kron_radius_spec_check :
    (sep_kron_radius (fun _ => true)
        ⟨fun _ => 1, fun _ => 0, false, 4, 4, 0, 1, 1, 1, 1, 0, 1, 1000000⟩
        0 0 5).1 = .ok :=
  (kron_radius_spec (fun _ => true)
      ⟨fun _ => 1, fun _ => 0, false, 4, 4, 0, 1, 1, 1, 1, 0, 1, 1000000⟩
      0 0 5 rfl (fun h => rfl)).1

/-! ## C5: `sep_ellipse_axes` -/

/-- C5 (confirmed): `sep_ellipse_axes` fails with `NonEllipseParams`
iff `cxx·cyy − cxy²/4 ≤ 0` or `cxx + cyy ≤ 0`; otherwise it succeeds
with `a = √(2/(p−t))`, `b = √(2/(p+t))` for `p = cxx+cyy`,
`t = √((cxx−cyy)² + cxy²)` — so `a ≥ b` — and a position angle in
`(−π/2, π/2]`. -/
theorem ellipse_axes_spec (cxx cyy cxy : ℝ) :
    (sep_ellipse_axes cxx cyy cxy = .error .nonEllipseParams
      ↔ (cxx * cyy - cxy * cxy / 4 ≤ 0 ∨ cxx + cyy ≤ 0))
    ∧ (¬ (cxx * cyy - cxy * cxy / 4 ≤ 0 ∨ cxx + cyy ≤ 0) →
        ∃ theta : ℝ,
          sep_ellipse_axes cxx cyy cxy
            = .ok (Real.sqrt (2 / (cxx + cyy
                     - Real.sqrt ((cxx - cyy) * (cxx - cyy) + cxy * cxy))),
                   Real.sqrt (2 / (cxx + cyy
                     + Real.sqrt ((cxx - cyy) * (cxx - cyy) + cxy * cxy))),
                   theta)
          ∧ Real.sqrt (2 / (cxx + cyy
               + Real.sqrt ((cxx - cyy) * (cxx - cyy) + cxy * cxy)))
             ≤ Real.sqrt (2 / (cxx + cyy
               - Real.sqrt ((cxx - cyy) * (cxx - cyy) + cxy * cxy)))
          ∧ -(Real.pi / 2) < theta ∧ theta ≤ Real.pi / 2) := by
  constructor
  · by_cases hc : cxx * cyy - cxy * cxy / 4 ≤ 0 ∨ cxx + cyy ≤ 0
    · simp only [sep_ellipse_axes]
      rw [if_pos hc]
      simp only [true_iff]
      exact hc
    · simp only [sep_ellipse_axes]
      rw [if_neg hc]
      simp only [iff_false_intro hc]
      simp
  · intro hno
    simp only [sep_ellipse_axes]
    rw [if_neg hno]
    refine ⟨_, rfl, ?_, ?_, ?_⟩
    · push_neg at hno
      have ht : 0 ≤ Real.sqrt ((cxx - cyy) * (cxx - cyy) + cxy * cxy) :=
        Real.sqrt_nonneg _
      have ht2 : Real.sqrt ((cxx - cyy) * (cxx - cyy) + cxy * cxy) ^ 2
          = (cxx - cyy) * (cxx - cyy) + cxy * cxy :=
        Real.sq_sqrt (by nlinarith [mul_self_nonneg (cxx - cyy), mul_self_nonneg cxy])
      have hsq : Real.sqrt ((cxx - cyy) * (cxx - cyy) + cxy * cxy) ^ 2
          < (cxx + cyy) ^ 2 := by nlinarith [hno.1]
      have hlt : Real.sqrt ((cxx - cyy) * (cxx - cyy) + cxy * cxy)
          < cxx + cyy := by nlinarith [hno.2, ht]
      apply Real.sqrt_le_sqrt
      rw [div_le_div_iff (by linarith) (by linarith)]
      linarith
    · push_neg at hno
      simp only [codeTheta]
      split_ifs <;>
        linarith [Real.arctan_lt_pi_div_two (cxy / (cxx - cyy)),
          Real.neg_pi_div_two_lt_arctan (cxy / (cxx - cyy)), Real.pi_pos]
    · push_neg at hno
      simp only [codeTheta]
      split_ifs <;>
        linarith [Real.arctan_lt_pi_div_two (cxy / (cxx - cyy)),
          Real.neg_pi_div_two_lt_arctan (cxy / (cxx - cyy)), Real.pi_pos]

/-- C5 (witness): the claim's example `cxx = 1, cyy = −1, cxy = 0` fails
with `NonEllipseParams`, and `cxx = 1, cyy = 2, cxy = 0` succeeds with
`a ≥ b` and an angle in range, via the theorem. -/
theorem ellipse_axes_spec_check :
    sep_ellipse_axes 1 (-1) 0 = .error .nonEllipseParams
    ∧ (∃ theta : ℝ,
        sep_ellipse_axes 1 2 0
          = .ok (Real.sqrt (2 / ((1 : ℝ) + 2
                   - Real.sqrt (((1 : ℝ) - 2) * ((1 : ℝ) - 2) + 0 * 0))),
                 Real.sqrt (2 / ((1 : ℝ) + 2
                   + Real.sqrt (((1 : ℝ) - 2) * ((1 : ℝ) - 2) + 0 * 0))),
                 theta)
        ∧ Real.sqrt (2 / ((1 : ℝ) + 2
             + Real.sqrt (((1 : ℝ) - 2) * ((1 : ℝ) - 2) + 0 * 0)))
           ≤ Real.sqrt (2 / ((1 : ℝ) + 2
             - Real.sqrt (((1 : ℝ) - 2) * ((1 : ℝ) - 2) + 0 * 0)))
        ∧ -(Real.pi / 2) < theta ∧ theta ≤ Real.pi / 2) :=
  ⟨(ellipse_axes_spec 1 (-1) 0).1.mpr (Or.inl (by norm_num)),
   (ellipse_axes_spec 1 2 0).2 (by norm_num)⟩

/-! ## C1: per-pixel contributions of `sep_sum_circann_multi` -/

theorem ctrunc_mul_stepdens {v step : ℝ} (hv : 0 ≤ v) (hstep : 0 ≤ step) :
    ctrunc (v * (1 / step)) = ⌊v / step⌋ := by
  rw [ctrunc_eq_floor (mul_nonneg hv (by positivity)), mul_one_div]

/-- The contribution the code computes for one gated pixel equals the
contribution the C1 claim describes, for `rmax ≥ 0` and `n ≥ 1`. -/
theorem pixContrib_eq (x y rmax : ℝ) (n : ℤ) (subpix : ℕ)
    (pix varpix : ℝ) (masked : Bool) (ix iy : ℤ) (b : Bins)
    (hr : 0 ≤ rmax) (hn : 1 ≤ n) :
    pixContrib x y rmax n subpix pix varpix masked ix iy b
      = pixContribClaim x y rmax n subpix pix varpix masked ix iy b := by
  have hncast : (0 : ℝ) < (n : ℝ) := by
    have h1 : (0 : ℤ) < n := by omega
    exact_mod_cast h1
  have hstep : 0 ≤ rmax / (n : ℝ) := div_nonneg hr (le_of_lt hncast)
  have hrpix : (0 : ℝ) ≤ Real.sqrt (((ix : ℝ) - x) * ((ix : ℝ) - x)
      + ((iy : ℝ) - y) * ((iy : ℝ) - y)) := Real.sqrt_nonneg _
  simp only [pixContrib, pixContribClaim]
  by_cases hd : 7072/10000 ≤ fmod (Real.sqrt (((ix : ℝ) - x) * ((ix : ℝ) - x)
        + ((iy : ℝ) - y) * ((iy : ℝ) - y))) (rmax / (n : ℝ))
      ∧ fmod (Real.sqrt (((ix : ℝ) - x) * ((ix : ℝ) - x)
        + ((iy : ℝ) - y) * ((iy : ℝ) - y))) (rmax / (n : ℝ))
        ≤ rmax / (n : ℝ) - 7072/10000
  · rw [if_neg (by push_neg; exact ⟨hd.1, hd.2⟩), if_pos hd]
    rw [ctrunc_mul_stepdens hrpix hstep]
  · rw [if_pos ?side, if_neg hd]
    case side =>
      rcases not_and_or.mp hd with h | h
      · exact Or.inl (not_le.mp h)
      · exact Or.inr (not_le.mp h)
    apply List.foldl_ext
    intro b1 sy hsy
    apply List.foldl_ext
    intro b2 sx hsx
    have hx1 : (ix : ℝ) - x + 1/2 * (1 / (subpix : ℝ) - 1)
        + (sx : ℝ) * (1 / (subpix : ℝ))
        = (ix : ℝ) - x - 1/2 + ((sx : ℝ) + 1/2) / (subpix : ℝ) := by
      ring
    have hy1 : (iy : ℝ) - y + 1/2 * (1 / (subpix : ℝ) - 1)
        + (sy : ℝ) * (1 / (subpix : ℝ))
        = (iy : ℝ) - y - 1/2 + ((sy : ℝ) + 1/2) / (subpix : ℝ) := by
      ring
    rw [hx1, hy1]
    congr 1
    · rw [one_div_mul_one_div]
      rw [sq]
    · rw [ctrunc_mul_stepdens (Real.sqrt_nonneg _) hstep]

theorem multiPix_eq (P : ApCall) (hr : 0 ≤ P.rmax) (hn : 1 ≤ P.n)
    (iy ix : ℤ) (st : Bins × Flags) :
    multiPixCode P iy ix st = multiPixClaim P iy ix st := by
  simp only [multiPixCode, multiPixClaim]
  have hnn : (0 : ℝ) ≤ ((ix : ℝ) - P.x) * ((ix : ℝ) - P.x)
      + ((iy : ℝ) - P.y) * ((iy : ℝ) - P.y) := by
    nlinarith [mul_self_nonneg ((ix : ℝ) - P.x), mul_self_nonneg ((iy : ℝ) - P.y)]
  have hgate : ((ix : ℝ) - P.x) * ((ix : ℝ) - P.x)
        + ((iy : ℝ) - P.y) * ((iy : ℝ) - P.y) < (P.rmax + 3/2) * (P.rmax + 3/2)
      ↔ Real.sqrt (((ix : ℝ) - P.x) * ((ix : ℝ) - P.x)
        + ((iy : ℝ) - P.y) * ((iy : ℝ) - P.y)) ^ 2 < (P.rmax + 3/2) ^ 2 := by
    rw [Real.sq_sqrt hnn, pow_two]
  by_cases hg : ((ix : ℝ) - P.x) * ((ix : ℝ) - P.x)
      + ((iy : ℝ) - P.y) * ((iy : ℝ) - P.y) < (P.rmax + 3/2) * (P.rmax + 3/2)
  · rw [if_pos hg, if_pos (hgate.mp hg)]
    rw [pixContrib_eq P.x P.y P.rmax P.n P.subpix _ _ _ ix iy st.1 hr hn]
  · rw [if_neg hg, if_neg (fun hc => hg (hgate.mpr hc))]

/-- C1 (confirmed): for every call with `rmax ≥ 0`, `n ≥ 1`,
`subpix ≥ 1`, the full `sep_sum_circann_multi` pipeline coincides with
the variant whose scan phase is the claim's per-pixel description: every
pixel of the bounding box with `rpix² < (rmax+1.5)²` contributes a whole
pixel into bin `⌊rpix/(rmax/n)⌋` when `fmod(rpix, rmax/n)` lies in
`[0.7072, rmax/n − 0.7072]`, and otherwise `subpix × subpix` sub-cell
point samples of weight `1/subpix²` binned by their own center
distances, masking decided once per whole pixel, bins deposited only
when the index is `< n`. -/
theorem circann_multi_matches_claim (convOk : ℤ → Bool) (P : ApCall)
    (b0 : Bins) (f0 : Flags)
    (hr : 0 ≤ P.rmax) (hn : 1 ≤ P.n) (hs : 1 ≤ P.subpix) :
    sep_sum_circann_multi convOk P b0 f0
      = sep_sum_circann_multi_claim convOk P b0 f0 := by
  have hscan : ∀ (box : Box) (st : Bins × Flags),
      scanBox (multiPixCode P) box st = scanBox (multiPixClaim P) box st := by
    intro box st
    unfold scanBox
    apply List.foldl_ext
    intro s iy hiy
    apply List.foldl_ext
    intro s2 ix hix
    exact multiPix_eq P hr hn iy ix s2
  unfold sep_sum_circann_multi sep_sum_circann_multi_claim
  simp only [hscan]

/-- C1 (witness): a concrete call (uniform unit image, no error or mask
buffer, `rmax = 2`, `n = 2`, `subpix = 2`, 8×8 image) satisfies the
hypotheses and the pipelines coincide, via the theorem. -/
theorem circann_multi_matches_claim_check :
    sep_sum_circann_multi (fun _ => true)
      ⟨fun _ => 1, false, fun _ => 0, false, fun _ => 0, 0, 0, 0, 8, 8,
       0, 0, false, false, false, 3, 3, 2, 2, 2⟩
      ⟨fun _ => 0, fun _ => 0, fun _ => 0, fun _ => 0⟩ Flags.clear
    = sep_sum_circann_multi_claim (fun _ => true)
      ⟨fun _ => 1, false, fun _ => 0, false, fun _ => 0, 0, 0, 0, 8, 8,
       0, 0, false, false, false, 3, 3, 2, 2, 2⟩
      ⟨fun _ => 0, fun _ => 0, fun _ => 0, fun _ => 0⟩ Flags.clear :=
  circann_multi_matches_claim (fun _ => true)
    ⟨fun _ => 1, false, fun _ => 0, false, fun _ => 0, 0, 0, 0, 8, 8,
     0, 0, false, false, false, 3, 3, 2, 2, 2⟩
    ⟨fun _ => 0, fun _ => 0, fun _ => 0, fun _ => 0⟩ Flags.clear
    (by norm_num) (by norm_num) (by norm_num)

/-! ## C6: ellipse coefficient round trip -/

/-- The code's angle recovery: for `D < 0` (the factor
`1/a² − 1/b²` of a proper ellipse `a > b`), coefficients with
`cxx − cyy = cos 2θ · D` and `cxy = sin 2θ · D` yield back `θ` for every
`θ ∈ (−π/2, π/2]` other than `±π/4` (where the exact `q == 0` test
short-circuits the angle to 0). -/
theorem codeTheta_recovers (theta D : ℝ) (hD : D < 0) (cxx cyy : ℝ)
    (hq : cxx - cyy = Real.cos (2 * theta) * D)
    (h1 : -(Real.pi / 2) < theta) (h2 : theta ≤ Real.pi / 2)
    (h3 : theta ≠ Real.pi / 4) (h4 : theta ≠ -(Real.pi / 4)) :
    codeTheta cxx cyy (Real.sin (2 * theta) * D) = theta := by
  have hpi := Real.pi_pos
  simp only [codeTheta]
  rcases eq_or_lt_of_le h2 with hhalf | h2'
  · subst hhalf
    have hsin : Real.sin (2 * (Real.pi / 2)) = 0 := by
      rw [show 2 * (Real.pi / 2) = Real.pi by ring, Real.sin_pi]
    have hcos : Real.cos (2 * (Real.pi / 2)) = -1 := by
      rw [show 2 * (Real.pi / 2) = Real.pi by ring, Real.cos_pi]
    rw [hsin, if_pos (zero_mul D)]
    have hqpos : cyy < cxx := by
      have : 0 < cxx - cyy := by rw [hq, hcos]; linarith
      linarith
    rw [if_pos hqpos, if_neg (by linarith)]
    linarith
  · rcases lt_trichotomy theta 0 with hneg | hzero | hpos
    · rcases lt_trichotomy theta (-(Real.pi / 4)) with ha1 | ha2 | ha3
      · have hsin : Real.sin (2 * theta) < 0 :=
          Real.sin_neg_of_neg_of_neg_pi_lt (by linarith) (by linarith)
        have hcos : Real.cos (2 * theta) < 0 := by
          have h := Real.cos_neg_of_pi_div_two_lt_of_lt
            (x := -(2 * theta)) (by linarith) (by linarith)
          rwa [Real.cos_neg] at h
        have hcxy : Real.sin (2 * theta) * D ≠ 0 :=
          ne_of_gt (mul_pos_of_neg_of_neg hsin hD)
        have hqne : cxx - cyy ≠ 0 := by
          rw [hq]
          exact ne_of_gt (mul_pos_of_neg_of_neg hcos hD)
        have hdiv : Real.sin (2 * theta) * D / (cxx - cyy) = Real.tan (2 * theta) := by
          rw [hq, Real.tan_eq_sin_div_cos]
          exact mul_div_mul_right _ _ (ne_of_lt hD)
        have harct : Real.arctan (Real.tan (2 * theta)) = 2 * theta + Real.pi := by
          rw [show Real.tan (2 * theta) = Real.tan (2 * theta + Real.pi) from
            (Real.tan_add_pi _).symm]
          exact Real.arctan_tan (by linarith) (by linarith)
        rw [if_neg hcxy, if_neg hqne, hdiv, harct]
        have hqpos : cyy < cxx := by
          have : 0 < cxx - cyy := by
            rw [hq]
            exact mul_pos_of_neg_of_neg hcos hD
          linarith
        rw [if_pos hqpos, if_pos (by linarith)]
        ring
      · exact absurd ha2 h4
      · have hsin : Real.sin (2 * theta) < 0 :=
          Real.sin_neg_of_neg_of_neg_pi_lt (by linarith) (by linarith)
        have hcos : 0 < Real.cos (2 * theta) :=
          Real.cos_pos_of_mem_Ioo ⟨by linarith, by linarith⟩
        have hcxy : Real.sin (2 * theta) * D ≠ 0 :=
          ne_of_gt (mul_pos_of_neg_of_neg hsin hD)
        have hqne : cxx - cyy ≠ 0 := by
          rw [hq]
          exact ne_of_lt (mul_neg_of_pos_of_neg hcos hD)
        have hdiv : Real.sin (2 * theta) * D / (cxx - cyy) = Real.tan (2 * theta) := by
          rw [hq, Real.tan_eq_sin_div_cos]
          exact mul_div_mul_right _ _ (ne_of_lt hD)
        have harct : Real.arctan (Real.tan (2 * theta)) = 2 * theta :=
          Real.arctan_tan (by linarith) (by linarith)
        rw [if_neg hcxy, if_neg hqne, hdiv, harct]
        have hqneg : ¬ (cyy < cxx) := by
          have : cxx - cyy < 0 := by
            rw [hq]
            exact mul_neg_of_pos_of_neg hcos hD
          exact not_lt.mpr (by linarith)
        rw [if_neg hqneg, if_neg (by linarith)]
        ring
    · subst hzero
      have hsin : Real.sin (2 * (0 : ℝ)) = 0 := by
        rw [show 2 * (0 : ℝ) = 0 by ring, Real.sin_zero]
      have hcos : Real.cos (2 * (0 : ℝ)) = 1 := by
        rw [show 2 * (0 : ℝ) = 0 by ring, Real.cos_zero]
      rw [hsin, if_pos (zero_mul D)]
      have hqneg : ¬ (cyy < cxx) := by
        have : cxx - cyy < 0 := by rw [hq, hcos]; linarith
        exact not_lt.mpr (by linarith)
      rw [if_neg hqneg, if_neg (by linarith)]
    · rcases lt_trichotomy theta (Real.pi / 4) with hb1 | hb2 | hb3
      · have hsin : 0 < Real.sin (2 * theta) :=
          Real.sin_pos_of_pos_of_lt_pi (by linarith) (by linarith)
        have hcos : 0 < Real.cos (2 * theta) :=
          Real.cos_pos_of_mem_Ioo ⟨by linarith, by linarith⟩
        have hcxy : Real.sin (2 * theta) * D ≠ 0 :=
          ne_of_lt (mul_neg_of_pos_of_neg hsin hD)
        have hqne : cxx - cyy ≠ 0 := by
          rw [hq]
          exact ne_of_lt (mul_neg_of_pos_of_neg hcos hD)
        have hdiv : Real.sin (2 * theta) * D / (cxx - cyy) = Real.tan (2 * theta) := by
          rw [hq, Real.tan_eq_sin_div_cos]
          exact mul_div_mul_right _ _ (ne_of_lt hD)
        have harct : Real.arctan (Real.tan (2 * theta)) = 2 * theta :=
          Real.arctan_tan (by linarith) (by linarith)
        rw [if_neg hcxy, if_neg hqne, hdiv, harct]
        have hqneg : ¬ (cyy < cxx) := by
          have : cxx - cyy < 0 := by
            rw [hq]
            exact mul_neg_of_pos_of_neg hcos hD
          exact not_lt.mpr (by linarith)
        rw [if_neg hqneg, if_neg (by linarith)]
        ring
      · exact absurd hb2 h3
      · have hsin : 0 < Real.sin (2 * theta) :=
          Real.sin_pos_of_pos_of_lt_pi (by linarith) (by linarith)
        have hcos : Real.cos (2 * theta) < 0 :=
          Real.cos_neg_of_pi_div_two_lt_of_lt (by linarith) (by linarith)
        have hcxy : Real.sin (2 * theta) * D ≠ 0 :=
          ne_of_lt (mul_neg_of_pos_of_neg hsin hD)
        have hqne : cxx - cyy ≠ 0 := by
          rw [hq]
          exact ne_of_gt (mul_pos_of_neg_of_neg hcos hD)
        have hdiv : Real.sin (2 * theta) * D / (cxx - cyy) = Real.tan (2 * theta) := by
          rw [hq, Real.tan_eq_sin_div_cos]
          exact mul_div_mul_right _ _ (ne_of_lt hD)
        have harct : Real.arctan (Real.tan (2 * theta)) = 2 * theta - Real.pi := by
          rw [show Real.tan (2 * theta) = Real.tan (2 * theta - Real.pi) from
            (Real.tan_sub_pi _).symm]
          exact Real.arctan_tan (by linarith) (by linarith)
        rw [if_neg hcxy, if_neg hqne, hdiv, harct]
        have hqpos : cyy < cxx := by
          have : 0 < cxx - cyy := by
            rw [hq]
            exact mul_pos_of_neg_of_neg hcos hD
          linarith
        rw [if_pos hqpos, if_neg (by linarith)]
        ring

/-- C6 (amended): converting axes to quadratic-form coefficients and
back recovers `(a, b, θ)` for all `a > b > 0` and
`θ ∈ (−π/2, π/2] \ {−π/4, π/4}`.  (At `a = b` the coefficients carry no
angle and the code returns angle 0; at `θ = ±π/4` the exact `q == 0`
test likewise returns angle 0; the axes are still recovered there.) -/
theorem ellipse_roundtrip (a b theta : ℝ) (hb : 0 < b) (hba : b < a)
    (h1 : -(Real.pi / 2) < theta) (h2 : theta ≤ Real.pi / 2)
    (h3 : theta ≠ Real.pi / 4) (h4 : theta ≠ -(Real.pi / 4)) :
    sep_ellipse_axes (sep_ellipse_coeffs a b theta).1
      (sep_ellipse_coeffs a b theta).2.1 (sep_ellipse_coeffs a b theta).2.2
      = .ok (a, b, theta) := by
  have ha : 0 < a := hb.trans hba
  have hD : 1 / (a * a) - 1 / (b * b) < 0 := by
    have hlt : b * b < a * a := by nlinarith
    have h1d : 1 / (a * a) < 1 / (b * b) :=
      one_div_lt_one_div_of_lt (by positivity) hlt
    linarith
  simp only [sep_ellipse_coeffs]
  set c := Real.cos theta with hcdef
  set s := Real.sin theta with hsdef
  have hpyth : s ^ 2 + c ^ 2 = 1 := Real.sin_sq_add_cos_sq theta
  have hdet : (c * c / (a * a) + s * s / (b * b))
        * (s * s / (a * a) + c * c / (b * b))
      - 2 * c * s * (1 / (a * a) - 1 / (b * b))
        * (2 * c * s * (1 / (a * a) - 1 / (b * b))) / 4
      = 1 / (a * a) * (1 / (b * b)) := by
    have e : (c * c / (a * a) + s * s / (b * b))
          * (s * s / (a * a) + c * c / (b * b))
        - 2 * c * s * (1 / (a * a) - 1 / (b * b))
          * (2 * c * s * (1 / (a * a) - 1 / (b * b))) / 4
        = (s ^ 2 + c ^ 2) ^ 2 * (1 / (a * a) * (1 / (b * b))) := by
      ring
    rw [e, hpyth]
    ring
  have hsum : (c * c / (a * a) + s * s / (b * b))
        + (s * s / (a * a) + c * c / (b * b))
      = 1 / (a * a) + 1 / (b * b) := by
    have e : (c * c / (a * a) + s * s / (b * b))
          + (s * s / (a * a) + c * c / (b * b))
        = (s ^ 2 + c ^ 2) * (1 / (a * a)) + (s ^ 2 + c ^ 2) * (1 / (b * b)) := by
      ring
    rw [e, hpyth]
    ring
  have hno : ¬ ((c * c / (a * a) + s * s / (b * b))
        * (s * s / (a * a) + c * c / (b * b))
      - 2 * c * s * (1 / (a * a) - 1 / (b * b))
        * (2 * c * s * (1 / (a * a) - 1 / (b * b))) / 4 ≤ 0
      ∨ (c * c / (a * a) + s * s / (b * b))
        + (s * s / (a * a) + c * c / (b * b)) ≤ 0) := by
    push_neg
    constructor
    · rw [hdet]
      positivity
    · rw [hsum]
      positivity
  simp only [sep_ellipse_axes]
  rw [if_neg hno]
  have hinner : (c * c / (a * a) + s * s / (b * b)
        - (s * s / (a * a) + c * c / (b * b)))
        * (c * c / (a * a) + s * s / (b * b)
        - (s * s / (a * a) + c * c / (b * b)))
      + 2 * c * s * (1 / (a * a) - 1 / (b * b))
        * (2 * c * s * (1 / (a * a) - 1 / (b * b)))
      = (1 / (b * b) - 1 / (a * a)) ^ 2 := by
    have e : (c * c / (a * a) + s * s / (b * b)
          - (s * s / (a * a) + c * c / (b * b)))
          * (c * c / (a * a) + s * s / (b * b)
          - (s * s / (a * a) + c * c / (b * b)))
        + 2 * c * s * (1 / (a * a) - 1 / (b * b))
          * (2 * c * s * (1 / (a * a) - 1 / (b * b)))
        = (s ^ 2 + c ^ 2) ^ 2 * (1 / (b * b) - 1 / (a * a)) ^ 2 := by
      ring
    rw [e, hpyth]
    ring
  have ht : Real.sqrt ((c * c / (a * a) + s * s / (b * b)
        - (s * s / (a * a) + c * c / (b * b)))
        * (c * c / (a * a) + s * s / (b * b)
        - (s * s / (a * a) + c * c / (b * b)))
      + 2 * c * s * (1 / (a * a) - 1 / (b * b))
        * (2 * c * s * (1 / (a * a) - 1 / (b * b))))
      = 1 / (b * b) - 1 / (a * a) := by
    rw [hinner, Real.sqrt_sq (by linarith)]
  simp only [Except.ok.injEq, Prod.mk.injEq]
  refine ⟨?_, ?_, ?_⟩
  · rw [ht]
    have harg : (c * c / (a * a) + s * s / (b * b))
          + (s * s / (a * a) + c * c / (b * b))
          - (1 / (b * b) - 1 / (a * a)) = 2 / (a * a) := by
      linear_combination hsum
    rw [harg, show (2 : ℝ) / (2 / (a * a)) = a * a from by field_simp,
      Real.sqrt_mul_self ha.le]
  · rw [ht]
    have harg : (c * c / (a * a) + s * s / (b * b))
          + (s * s / (a * a) + c * c / (b * b))
          + (1 / (b * b) - 1 / (a * a)) = 2 / (b * b) := by
      linear_combination hsum
    rw [harg, show (2 : ℝ) / (2 / (b * b)) = b * b from by field_simp,
      Real.sqrt_mul_self hb.le]
  · have hcxyr : 2 * c * s * (1 / (a * a) - 1 / (b * b))
        = Real.sin (2 * theta) * (1 / (a * a) - 1 / (b * b)) := by
      rw [Real.sin_two_mul, ← hcdef, ← hsdef]
      ring
    have hqr : (c * c / (a * a) + s * s / (b * b))
          - (s * s / (a * a) + c * c / (b * b))
        = Real.cos (2 * theta) * (1 / (a * a) - 1 / (b * b)) := by
      rw [Real.cos_two_mul', ← hcdef, ← hsdef]
      ring
    rw [hcxyr]
    exact codeTheta_recovers theta (1 / (a * a) - 1 / (b * b)) hD _ _ hqr h1 h2 h3 h4

/-- C6 (counterexample): two inputs inside the claim's domain
`a ≥ b > 0`, `θ ∈ (−π/2, π/2]` where the round trip does not recover θ:
for `a = b = 1, θ = π/4` the coefficients are `(1, 1, 0)` and the
recovered angle is 0; for `a = 2, b = 1, θ = π/4` the coefficients are
`(5/8, 5/8, −3/4)`, the exact `q == 0` test fires, and the recovered
angle is again 0 — but `0 ≠ π/4`. -/
theorem ellipse_roundtrip_refuted :
    ((1 : ℝ) ≤ 1 ∧ (0 : ℝ) < 1
      ∧ -(Real.pi / 2) < Real.pi / 4 ∧ Real.pi / 4 ≤ Real.pi / 2)
    ∧ sep_ellipse_coeffs 1 1 (Real.pi / 4) = (1, 1, 0)
    ∧ sep_ellipse_axes 1 1 0 = .ok (1, 1, 0)
    ∧ (0 : ℝ) ≠ Real.pi / 4
    ∧ ((1 : ℝ) ≤ 2)
    ∧ sep_ellipse_coeffs 2 1 (Real.pi / 4) = (5/8, 5/8, -(3/4))
    ∧ sep_ellipse_axes (5/8) (5/8) (-(3/4)) = .ok (2, 1, 0) := by
  have hpi := Real.pi_pos
  have h2 : Real.sqrt 2 * Real.sqrt 2 = 2 := Real.mul_self_sqrt (by norm_num)
  refine ⟨⟨le_refl 1, by norm_num, by linarith, by linarith⟩, ?_, ?_,
    ne_of_lt (by linarith), by norm_num, ?_, ?_⟩
  · simp only [sep_ellipse_coeffs, Real.cos_pi_div_four, Real.sin_pi_div_four,
      Prod.mk.injEq]
    refine ⟨?_, ?_, ?_⟩
    · linear_combination (1/2) * h2
    · linear_combination (1/2) * h2
    · ring
  · simp only [sep_ellipse_axes, codeTheta]
    rw [if_neg (by norm_num)]
    rw [show ((1 : ℝ) - 1) * ((1 : ℝ) - 1) + 0 * 0 = 0 by norm_num,
      Real.sqrt_zero]
    rw [show (2 : ℝ) / (1 + 1 - 0) = 1 by norm_num, Real.sqrt_one]
    rw [show (2 : ℝ) / (1 + 1 + 0) = 1 by norm_num, Real.sqrt_one]
    have hnp : ¬ (Real.pi / 2 < (0 : ℝ)) := not_lt.mpr (by linarith)
    norm_num [hnp]
  · simp only [sep_ellipse_coeffs, Real.cos_pi_div_four, Real.sin_pi_div_four,
      Prod.mk.injEq]
    refine ⟨?_, ?_, ?_⟩
    · linear_combination (5/16) * h2
    · linear_combination (5/16) * h2
    · linear_combination (-(3/8)) * h2
  · simp only [sep_ellipse_axes, codeTheta]
    rw [if_neg (by norm_num)]
    rw [show ((5 : ℝ)/8 - 5/8) * ((5 : ℝ)/8 - 5/8) + -(3/4) * -(3/4)
        = (3/4 : ℝ) ^ 2 by norm_num,
      Real.sqrt_sq (by norm_num)]
    rw [show (2 : ℝ) / (5/8 + 5/8 - 3/4) = (2 : ℝ) ^ 2 by norm_num,
      Real.sqrt_sq (by norm_num)]
    rw [show (2 : ℝ) / (5/8 + 5/8 + 3/4) = 1 by norm_num, Real.sqrt_one]
    have hnp : ¬ (Real.pi / 2 < (0 : ℝ)) := not_lt.mpr (by linarith)
    norm_num [hnp]

/-- C6 (witness): the round trip at `a = 2, b = 1, θ = 0` recovers
`(2, 1, 0)`, via the amended theorem. -/
theorem ellipse_roundtrip_check :
    sep_ellipse_axes (sep_ellipse_coeffs 2 1 0).1 (sep_ellipse_coeffs 2 1 0).2.1
      (sep_ellipse_coeffs 2 1 0).2.2 = .ok (2, 1, 0) :=
  ellipse_roundtrip 2 1 0 (by norm_num) (by norm_num)
    (by linarith [Real.pi_pos]) (by linarith [Real.pi_pos])
    (ne_of_lt (by linarith [Real.pi_pos]))
    (ne_of_gt (by linarith [Real.pi_pos]))

end SEP
